import Mathlib

/-!
Verification development for the Nickel interpreter (src/src/nickel.c).

The C program is shallowly embedded: byte buffers become `List Char` (one
`Char` per byte), the tagged `Node` union becomes an inductive type, the
global parser cursor becomes explicit cursor passing, and the interpreter's
global state (function table, argument stack, stdout, PRNG) becomes an
explicit `State` record threaded through a fuel-indexed evaluator.

External collaborators are modelled at their interface, exactly as the spec
scopes them out:
* the generic containers of array.c / hash_table.h (absent from src/) become
  Lean lists; `hash_table` becomes an association list with unique keys;
* libc's printf machinery (`snprintf`, `asprintf`) and `rand` become an
  abstract `Host` record; the format engine records, for each directive, the
  exact format string and arguments handed to `asprintf`;
* the mmap'd source file is consumed by the C code through C-string reads, so
  the parser input is taken to be the byte list before the first NUL.
-/

namespace Nickel

/-- Byte strings: one `Char` per byte. -/
abbrev Bytes := List Char

/-- C-string view of a buffer: `strlen`/`strcmp`/`strdup` and the printer's
PUSHS loop all stop at the first NUL byte. -/
def cstr (s : Bytes) : Bytes := s.takeWhile (fun c => c ≠ '\x00')

/-- Node kinds (the `enum` in nickel.c): INVALID, PROGRAM, LIST, INT_ATOM,
STRING_ATOM, NAME_ATOM. The payload union becomes constructor arguments.
INT_ATOM holds a C `long long`; it is modelled as unbounded `ℤ` (no claim in
scope exercises 64-bit wrap-around, and signed overflow is UB in C). -/
inductive Node where
  | invalid : Node
  | program (children : List Node) : Node
  | list (children : List Node) : Node
  | int (i : ℤ) : Node
  | str (s : Bytes) : Node
  | name (s : Bytes) : Node

/-- Kind tag of a node, for the dynamic `check` of nickel.c. -/
inductive Kind where
  | invalid | program | list | int | str | name
deriving DecidableEq

def Node.kindOf : Node → Kind
  | .invalid => .invalid
  | .program _ => .program
  | .list _ => .list
  | .int _ => .int
  | .str _ => .str
  | .name _ => .name

mutual
/-- Deep copy (`copy_node`). `make_string`/`make_name` use `strdup`, which
truncates at the first NUL byte, hence `cstr` on the payload. The C switch
has no INVALID/PROGRAM case and returns an uninitialized struct there; those
kinds are mapped to `.invalid` (they never reach `copy_node` at run time). -/
def copy_node : Node → Node
  | .int i => .int i
  | .str s => .str (cstr s)
  | .name s => .name (cstr s)
  | .list cs => .list (copy_children cs)
  | .program _ => .invalid
  | .invalid => .invalid

/-- Child-wise deep copy of a LIST node's children array. -/
def copy_children : List Node → List Node
  | [] => []
  | c :: cs => copy_node c :: copy_children cs
end

mutual
/-- Well-formed run-time values: no INVALID or PROGRAM nodes inside, and no
embedded NUL in STRING/ NAME payloads. Every node the evaluator produces
and stores is of this shape; on such nodes `copy_node` is the identity. -/
def Node.wf : Node → Bool
  | .int _ => true
  | .str s => s.all (fun c => c ≠ '\x00')
  | .name s => s.all (fun c => c ≠ '\x00')
  | .list cs => wf_children cs
  | .program _ => false
  | .invalid => false

/-- Conjunction of `Node.wf` over a children list. -/
def wf_children : List Node → Bool
  | [] => true
  | c :: cs => Node.wf c && wf_children cs
end

/-- Decimal digit character, used to model `snprintf(buff, _, s2, i)` with a
`%lld` conversion. -/
def digit_char (d : ℕ) : Char := ['0', '1', '2', '3', '4', '5', '6', '7', '8', '9'].getD d '0'

/-- Fuel-indexed canonical decimal rendering of a natural number (the fuel
only bounds the digit count so that the recursion is structural). -/
def nat_decimal_go : ℕ → ℕ → Bytes
  | 0, _ => []
  | fuel + 1, n =>
    if n < 10 then [digit_char n]
    else nat_decimal_go fuel (n / 10) ++ [digit_char (n % 10)]

/-- Canonical decimal rendering of a natural number, without leading zeros. -/
def nat_decimal (n : ℕ) : Bytes := nat_decimal_go (n + 1) n

/-- Decimal rendering of an integer, as produced by `snprintf("%lld")`. -/
def int_decimal (i : ℤ) : Bytes :=
  if i < 0 then '-' :: nat_decimal (-i).toNat else nat_decimal i.toNat

mutual
/-- Printer (`_node_to_string`). PROGRAM: child per line; LIST: bracketed,
space-separated with a trailing space; INT: decimal; STRING: the raw bytes up
to the first NUL (PUSHS stops at NUL); NAME: angle-bracketed. -/
def node_to_string : Node → Bytes
  | .invalid => []
  | .program cs => program_children_string cs
  | .list cs => '[' :: ' ' :: (list_children_string cs ++ [']'])
  | .int i => int_decimal i
  | .str s => cstr s
  | .name s => ('<' :: 'n' :: 'a' :: 'm' :: 'e' :: ' ' :: cstr s) ++ ['>']

/-- PROGRAM case of the printer: each child is followed by a newline. -/
def program_children_string : List Node → Bytes
  | [] => []
  | c :: cs => node_to_string c ++ '\n' :: program_children_string cs

/-- LIST case of the printer: each child is followed by a space. -/
def list_children_string : List Node → Bytes
  | [] => []
  | c :: cs => node_to_string c ++ ' ' :: list_children_string cs
end

/-- C `isspace` on the ASCII bytes the interpreter can see. -/
def isspace_c (c : Char) : Bool :=
  decide (c = ' ' ∨ c = '\t' ∨ c = '\n' ∨ c = '\x0b' ∨ c = '\x0c' ∨ c = '\r')

/-- C `isdigit`. -/
def isdigit_c (c : Char) : Bool := decide ('0' ≤ c ∧ c ≤ '9')

/-- C `isalpha` (ASCII). -/
def isalpha_c (c : Char) : Bool :=
  decide (('a' ≤ c ∧ c ≤ 'z') ∨ ('A' ≤ c ∧ c ≤ 'Z'))

/-- CLEAN macro as a two-state character automaton. State `false`: skip
whitespace (counting newlines) and enter a comment at `;`. State `true`
(inside a `;` comment): skip to the newline; the C code leaves the newline
for the following whitespace loop, which consumes it and bumps the line
counter — consuming it here with `l + 1` is the same net effect. -/
def clean_go : Bool → Bytes → ℕ → Bytes × ℕ
  | _, [], l => ([], l)
  | false, c :: cs, l =>
    if isspace_c c then clean_go false cs (if c = '\n' then l + 1 else l)
    else if c = ';' then clean_go true cs l
    else (c :: cs, l)
  | true, c :: cs, l =>
    if c = '\n' then clean_go false cs (l + 1) else clean_go true cs l

/-- Skip whitespace and `;` comments before a token (the CLEAN macro). -/
def clean (bs : Bytes) (l : ℕ) : Bytes × ℕ := clean_go false bs l

/-- Digit-accumulation loop of `strtoll`, most significant digit first. -/
def take_digits : ℕ → Bytes → ℕ × Bytes
  | acc, [] => (acc, [])
  | acc, c :: cs =>
    if isdigit_c c then take_digits (10 * acc + (c.toNat - 48)) cs else (acc, c :: cs)

/-- Modelled from libc: `strtoll(s, &end, 10)` skips leading whitespace, reads
an optional sign and then decimal digits; `none` is the `end == start` case
(no digits consumed). ERANGE saturation at the `long long` bounds is not
modelled (integers are unbounded here). -/
def strtoll (bs : Bytes) : Option (ℤ × Bytes) :=
  let bs1 := bs.dropWhile (fun c => isspace_c c)
  let sgn : Bool × Bytes :=
    match bs1 with
    | c :: rest =>
      if c = '-' then (true, rest)
      else if c = '+' then (false, rest) else (false, c :: rest)
    | [] => (false, [])
  match sgn.2 with
  | c :: cs =>
    if isdigit_c c then
      let p := take_digits 0 (c :: cs)
      some (if sgn.1 then -(p.1 : ℤ) else (p.1 : ℤ), p.2)
    else none
  | [] => none

/-- Scan of a string literal body (`while (cursor[i] && (cursor[i] != '"' ||
(i > 0 && cursor[i-1] == '\\'))) i += 1;`). The flag is whether the previous
raw byte was a backslash. Returns the scanned interior and the rest of the
input (which starts with the closing quote when one was found). -/
def scan_string : Bool → Bytes → Bytes × Bytes
  | _, [] => ([], [])
  | prevBS, c :: cs =>
    if c = '"' ∧ prevBS = false then ([], c :: cs)
    else
      let p := scan_string (c = '\\') cs
      (c :: p.1, p.2)

/-- Escape switch of the string materialisation loop in `parse_node`. The
backslash case mirrors `case '\\': *(p++) = '\\';` in the C switch; note that
the materialisation loop skips every backslash byte before reaching the
switch, so that case is dead code there. -/
def esc_byte (c : Char) : Bytes :=
  if c = 'n' then ['\n']
  else if c = 'r' then ['\r']
  else if c = 't' then ['\t']
  else if c = '0' then ['\x00']
  else if c = '"' then ['"']
  else if c = '\\' then ['\\']
  else ['\\', c]

/-- Materialisation loop of a string literal: byte `j` is skipped if it is a
backslash; otherwise it is escape-expanded when the previous raw byte was a
backslash, and copied verbatim when not. The flag carries `cursor[j-1] ==
'\\'` (false at `j = 0`). -/
def string_escape : Bool → Bytes → Bytes
  | _, [] => []
  | prevBS, c :: cs =>
    if c = '\\' then string_escape true cs
    else (if prevBS then esc_byte c else [c]) ++ string_escape false cs

/-- Result of `parse_node`: a node plus the rest of the input and the line
counter, or a fatal syntax error (ERROR exits the process), or exhausted
fuel (an artifact of the embedding; any terminating C run has enough). -/
inductive PRes where
  | ok (n : Node) (rest : Bytes) (line : ℕ)
  | err (msg : String) (line : ℕ)
  | fuel

def errBadInteger : String := "bad integer"
def errClosingBracket : String := "expected closing bracket"
def errClosingQuote : String := "expected closing quote"
def errUnexpectedChar : String := "unexpected character"

/-- Integer-literal guard of `parse_node`: `isdigit(*cursor) || (*cursor ==
'-' && isdigit(*(cursor + 1)))`. -/
def int_guard : Bytes → Bool
  | [] => false
  | c :: rest =>
    isdigit_c c || (c = '-' && (match rest with | d :: _ => isdigit_c d | [] => false))

mutual
/-- Recursive-descent `parse_node`. Dispatch on the lead byte after CLEAN:
end of input gives an INVALID node (kind left INVALID); a digit or `-`digit
gives an INT via `strtoll`; `[` opens a LIST; `"` opens a STRING literal;
`]` is an "unexpected character" error; anything else is a NAME token up to
whitespace/`]`. Fuel only bounds recursion depth/loop count. -/
def parse_node : ℕ → Bytes → ℕ → PRes
  | 0, _, _ => .fuel
  | fuel + 1, bs0, l0 =>
    let p := clean bs0 l0
    match p.1 with
    | [] => .ok .invalid [] p.2
    | c :: rest =>
      if int_guard (c :: rest) then
        match strtoll (c :: rest) with
        | some iq => .ok (.int iq.1) iq.2 p.2
        | none => .err errBadInteger p.2
      else if c = '[' then
        let q := clean rest p.2
        parse_list fuel [] q.1 q.2
      else if c = '"' then
        let q := scan_string false rest
        match q.2 with
        | '"' :: tail => .ok (.str (string_escape false q.1)) tail p.2
        | _ => .err errClosingQuote p.2
      else if c = ']' then .err errUnexpectedChar p.2
      else
        let nm := (c :: rest).takeWhile (fun ch => !isspace_c ch && ch ≠ ']')
        .ok (.name nm) ((c :: rest).dropWhile (fun ch => !isspace_c ch && ch ≠ ']')) p.2

/-- Child loop of the `[` branch: while the next byte is not `]`, parse a
child; a child of kind INVALID (end of input) falls out of the loop and the
missing `]` is a syntax error. The input is CLEANed at every loop entry. -/
def parse_list : ℕ → List Node → Bytes → ℕ → PRes
  | 0, _, _, _ => .fuel
  | fuel + 1, acc, bs, l =>
    if bs.head? = some ']' then .ok (.list acc.reverse) bs.tail l
    else
      match parse_node fuel bs l with
      | .ok .invalid _ l' => .err errClosingBracket l'
      | .ok child rest l' =>
        let p := clean rest l'
        parse_list fuel (child :: acc) p.1 p.2
      | e => e
end

/-! ## Interpreter state -/

/-- Process-wide interpreter state: the function symbol table (`functions`,
a `hash_table(fn_name_t, array_t)` modelled as an association list with
unique keys), the argument stack (`args`; the head is `array_last`, i.e.
the top frame), the bytes written to stdout so far, and a counter into the
host PRNG stream. -/
structure State where
  functions : List (Bytes × List Node)
  args : List (List Node)
  output : Bytes
  randIdx : ℕ

/-- Argument as handed to the variadic `asprintf`: `raw` is the node whose
payload union is read directly (`->integer` / `->_v`); `rendered` is a
string already produced by `node_to_string`. -/
inductive PArg where
  | raw (n : Node)
  | rendered (s : Bytes)

/-- One unit of format-engine output: a literal byte, or one `asprintf`
expansion (the exact format string and argument list passed to it). -/
inductive Piece where
  | ch (c : Char)
  | dir (fmt : Bytes) (args : List PArg)

/-- Host interfaces external to the interpreter: libc's `rand` (a stream of
values indexed by call count) and `asprintf` (printf-style rendering of one
directive). Their internals are outside the program under verification. -/
structure Host where
  rand : ℕ → ℤ
  asprintf : Bytes → List PArg → Bytes

/-- Result of evaluation: a node together with the post-state, a fatal
interpreter error (ERROR prints and exits), undefined behaviour (out-of-
bounds access, wild-pointer union read, zero divisor), or exhausted fuel
(embedding artifact: any terminating C run has enough fuel). -/
inductive Res where
  | ok (n : Node) (st : State)
  | err (msg : String)
  | ub
  | fuel

/-- Lookup in the function table (`hash_table_get_val`): key comparison is
`strcmp`, here plain equality of NUL-free byte lists. -/
def fn_lookup : List (Bytes × List Node) → Bytes → Option (List Node)
  | [], _ => none
  | (k, v) :: rest, key => if k = key then some v else fn_lookup rest key

/-- Replacement insert (`hash_table_delete` of an existing binding followed by
`hash_table_insert`): the table keeps unique keys. -/
def fn_insert (tbl : List (Bytes × List Node)) (key : Bytes) (v : List Node) :
    List (Bytes × List Node) :=
  (key, v) :: tbl.filter (fun p => p.1 ≠ key)

/-- Union read of `->integer`. Callers are kind-checked; on a non-INT node the
C value would be a reinterpretation of another payload, never inspected on
the paths modelled here (the `0` default is unreachable after `check`). -/
def union_int : Node → ℤ
  | .int i => i
  | _ => 0

/-- Union read of `->children`, kind-checked by callers like `union_int`. -/
def union_children : Node → List Node
  | .list cs => cs
  | _ => []

/-- Union read of `->name` in `interpret_define`: NAME and STRING payloads
share the pointer slot, so both yield a usable key; for INT/LIST children the
read reinterprets an integer or an array header as a pointer (`none` here,
undefined behaviour in C). -/
def union_name : Node → Option Bytes
  | .name s => some s
  | .str s => some s
  | _ => none

def errArity : String := "wrong number of arguments"
def errKindCheck : String := "incorrect argument type"

/-- Per-argument kind loop of `check`; `none` in the expected list is the
`-1` wildcard. -/
def check_kinds : List Node → List (Option Kind) → Option String
  | [], [] => none
  | a :: as, k :: ks =>
    match k with
    | some kk => if a.kindOf = kk then check_kinds as ks else some errKindCheck
    | none => check_kinds as ks
  | _, _ => some errArity

/-- Dynamic arity/kind contract of built-ins (the variadic `check`): the
evaluated-nodes sequence holds the function-name node at index 0 and the
arguments from index 1. -/
def check (ev : List Node) (kinds : List (Option Kind)) : Option String :=
  if ev.length - 1 ≠ kinds.length then some errArity
  else check_kinds (ev.drop 1) kinds

/-! ## Format engine -/

def errFmtMissing : String := "format missing argument"
def errFmtArity : String := "fmt expects at least one argument"
def errFmtFirstString : String := "first argument to fmt must be a string"

/-- Expansion of one complete directive body (the block between reading the
closing brace and `array_push_n` in `do_fmt`): `var_width` when the body
contains `*`; missing-argument check against `node_idx + var_width`; if the
last byte of `%body` is not alphabetic the directive is string-valued — the
value node is rendered with `node_to_string` and a trailing `s` conversion is
appended — otherwise the raw payload union is passed through. Returns the
piece and the next `node_idx`. -/
def fmt_directive (nodes : List Node) (body : Bytes) (idx : ℕ) :
    Except String (Piece × ℕ) :=
  let var_width := body.any (fun c => c = '*')
  let vw := if var_width then 1 else 0
  if nodes.length ≤ idx + vw then .error errFmtMissing
  else
    let buff := '%' :: body
    if (isalpha_c (buff.getLastD ' ')) = false then
      let buffS := buff ++ ['s']
      if var_width then
        let ns := node_to_string (nodes.getD (idx + 1) .invalid)
        .ok (.dir buffS [.raw (nodes.getD idx .invalid), .rendered ns], idx + 2)
      else
        let ns := node_to_string (nodes.getD idx .invalid)
        .ok (.dir buffS [.rendered ns], idx + 1)
    else
      if var_width then
        .ok (.dir buff [.raw (nodes.getD idx .invalid), .raw (nodes.getD (idx + 1) .invalid)],
             idx + 2)
      else
        .ok (.dir buff [.raw (nodes.getD idx .invalid)], idx + 1)

/-- Byte scan of `do_fmt` as a two-mode automaton. Normal mode (`none`): an
unescaped `{` opens a directive; `{` right after a literal `\` pops that
backslash and emits `{`; every other byte is emitted verbatim; `last` tracks
the previous raw byte (initially NUL). Directive mode (`some bodyAcc`):
collect body bytes until `}` (then expand via `fmt_directive` and continue
with `last = '}'`); end of format inside a directive discards it (`break`). -/
def fmt_scan (nodes : List Node) : Bytes → Char → ℕ → Option Bytes → List Piece →
    Except String (List Piece)
  | [], _, _, _, acc => .ok acc.reverse
  | c :: rest, last, idx, none, acc =>
    if c = '\x7b' then
      if last = '\\' then fmt_scan nodes rest c idx none (Piece.ch c :: acc.tail)
      else fmt_scan nodes rest last idx (some []) acc
    else fmt_scan nodes rest c idx none (Piece.ch c :: acc)
  | c :: rest, last, idx, some bodyAcc, acc =>
    if c = '\x7d' then
      match fmt_directive nodes bodyAcc.reverse idx with
      | .ok pIdx => fmt_scan nodes rest c pIdx.2 none (pIdx.1 :: acc)
      | .error e => .error e
    else fmt_scan nodes rest last idx (some (c :: bodyAcc)) acc

/-- Concatenation of the scanned pieces into the output buffer; a directive's
expansion is the host `asprintf` result, appended through `strlen` (hence
`cstr`). -/
def render_pieces (host : Host) : List Piece → Bytes
  | [] => []
  | .ch c :: ps => c :: render_pieces host ps
  | .dir f as :: ps => cstr (host.asprintf f as) ++ render_pieces host ps

/-- Format engine `do_fmt`: element 1 of the evaluated-nodes sequence is the
format string (read as a C string), directive arguments are consumed from
index 2 on. -/
def do_fmt (host : Host) (ev : List Node) : Except String Bytes :=
  match ev.getD 1 .invalid with
  | .str s => (fmt_scan ev (cstr s) '\x00' 2 none []).map (render_pieces host)
  | _ => .error errFmtFirstString

/-! ## Evaluator -/

def errBadNode : String := "bad node"
def errEmptyApply : String := "no function to apply in empty list"
def errHeadNotName : String := "expected function name as first element in list-function application"
def errIfArity : String := "if expects a condition and at least a true expression"
def errIfCondInt : String := "if condition must evaluate to an integer"
def errDefineArity : String := "define expects a name and at least one expression"
def errCarEmpty : String := "car expects a non-empty list"
def errUnknownFn : String := "unknown function"
def errArgRefOutside : String := "argument references are only valid within a function"
def errArgRefParse : String := "unable to parse argument index"
def errArgRefRange : String := "argument reference invalid"

def ifName : Bytes := "if".toList
def defineName : Bytes := "define".toList
def plusName : Bytes := "+".toList
def minusName : Bytes := "-".toList
def timesName : Bytes := "*".toList
def divName : Bytes := "/".toList
def modName : Bytes := "%".toList
def eqName : Bytes := "==".toList
def neName : Bytes := "!=".toList
def ltName : Bytes := "<".toList
def leName : Bytes := "<=".toList
def gtName : Bytes := ">".toList
def geName : Bytes := ">=".toList
def listName : Bytes := "list".toList
def lenName : Bytes := "len".toList
def appendName : Bytes := "append".toList
def carName : Bytes := "car".toList
def cdrName : Bytes := "cdr".toList
def randName : Bytes := "rand".toList
def printName : Bytes := "print".toList
def fmtName : Bytes := "fmt".toList
def pfmtName : Bytes := "pfmt".toList

/-- Left-to-right strict evaluation of the argument expressions of an
application (the `array_traverse_from(node->children, it, 1)` loop in
`apply`), threading the state; any failure aborts. -/
def eval_args (interp : State → Node → Res) : State → List Node →
    Except Res (List Node × State)
  | st, [] => .ok ([], st)
  | st, n :: ns =>
    match interp st n with
    | .ok v st' =>
      match eval_args interp st' ns with
      | .ok p => .ok (v :: p.1, p.2)
      | e => e
    | r => .error r

/-- Body-expression loop of a user-function application: evaluate each
expression in order, discarding (freeing) every result but the last. An
empty body returns INVALID (unreachable: `define` requires a body). -/
def eval_body (interp : State → Node → Res) : State → List Node → Res
  | st, [] => .ok .invalid st
  | st, [e] => interp st e
  | st, e :: es =>
    match interp st e with
    | .ok _ st' => eval_body interp st' es
    | r => r

/-- PROGRAM loop of `interpret`: `val = interpret(child); free_node(&val);`
per child. `free_node` releases heap storage but leaves the struct `val`
itself unchanged, so after the loop the function returns the (freed) result
of the last child — INVALID only when there are no children. Heap validity is
not modelled; only the returned struct is. -/
def run_program (interp : State → Node → Res) : State → Node → List Node → Res
  | st, last, [] => .ok last st
  | st, _, c :: cs =>
    match interp st c with
    | .ok v st' => run_program interp st' v cs
    | r => r

/-- Special form `interpret_if`, applied to the unevaluated children of the
List node: requires at least a condition and a true expression; the condition
must evaluate to an INT; only the selected branch is then evaluated (a
missing else branch yields INT 0). -/
def interpret_if (interp : State → Node → Res) (st : State) (children : List Node) : Res :=
  if children.length < 3 then .err errIfArity
  else
    match interp st (children.getD 1 .invalid) with
    | .ok cond st1 =>
      match cond with
      | .int v =>
        if v ≠ 0 then interp st1 (children.getD 2 .invalid)
        else if 4 ≤ children.length then interp st1 (children.getD 3 .invalid)
        else .ok (.int 0) st1
      | _ => .err errIfCondInt
    | r => r

/-- Special form `interpret_define`, applied to the unevaluated children:
deep-copies the (unevaluated) name child, keys the table on its pointer
payload (`strdup(name.name)` — NAME and STRING children both work, other
kinds are a wild-pointer read), installs deep copies of the body expressions
replacing any previous binding, and returns the copied name node. -/
def interpret_define (st : State) (children : List Node) : Res :=
  if children.length < 3 then .err errDefineArity
  else
    let nm := copy_node (children.getD 1 .invalid)
    match union_name nm with
    | some key =>
      .ok nm { st with functions := fn_insert st.functions (cstr key) (copy_children (children.drop 2)) }
    | none => .ub

/-- User-function application: push a frame of deep copies of the evaluated
nodes (function-name node at index 0), deep-copy the body snapshot found in
the table at call entry, evaluate it, then pop the frame. -/
def call_user (interp : State → Node → Res) (st : State) (ev : List Node)
    (body : List Node) : Res :=
  let st1 : State := { st with args := copy_children ev :: st.args }
  match eval_body interp st1 (copy_children body) with
  | .ok v st2 => .ok v { st2 with args := st2.args.tail }
  | r => r

/-- Built-in (and user-function) dispatch chain of `apply`, reached after all
argument expressions have been evaluated; `nm` is the name string of the
evaluated head, `ev` the evaluated-nodes sequence (head at index 0). Division
and remainder by zero are undefined behaviour. -/
def dispatch (host : Host) (interp : State → Node → Res) (nm : Bytes)
    (ev : List Node) (st : State) : Res :=
  let a1 := ev.getD 1 .invalid
  let a2 := ev.getD 2 .invalid
  if nm = plusName then
    match check ev [some .int, some .int] with
    | some e => .err e
    | none => .ok (.int (union_int a1 + union_int a2)) st
  else if nm = minusName then
    match check ev [some .int, some .int] with
    | some e => .err e
    | none => .ok (.int (union_int a1 - union_int a2)) st
  else if nm = timesName then
    match check ev [some .int, some .int] with
    | some e => .err e
    | none => .ok (.int (union_int a1 * union_int a2)) st
  else if nm = divName then
    match check ev [some .int, some .int] with
    | some e => .err e
    | none => if union_int a2 = 0 then .ub else .ok (.int (Int.tdiv (union_int a1) (union_int a2))) st
  else if nm = modName then
    match check ev [some .int, some .int] with
    | some e => .err e
    | none => if union_int a2 = 0 then .ub else .ok (.int (Int.tmod (union_int a1) (union_int a2))) st
  else if nm = eqName then
    match check ev [some .int, some .int] with
    | some e => .err e
    | none => .ok (.int (if union_int a1 = union_int a2 then 1 else 0)) st
  else if nm = neName then
    match check ev [some .int, some .int] with
    | some e => .err e
    | none => .ok (.int (if union_int a1 = union_int a2 then 0 else 1)) st
  else if nm = ltName then
    match check ev [some .int, some .int] with
    | some e => .err e
    | none => .ok (.int (if union_int a1 < union_int a2 then 1 else 0)) st
  else if nm = leName then
    match check ev [some .int, some .int] with
    | some e => .err e
    | none => .ok (.int (if union_int a1 ≤ union_int a2 then 1 else 0)) st
  else if nm = gtName then
    match check ev [some .int, some .int] with
    | some e => .err e
    | none => .ok (.int (if union_int a2 < union_int a1 then 1 else 0)) st
  else if nm = geName then
    match check ev [some .int, some .int] with
    | some e => .err e
    | none => .ok (.int (if union_int a2 ≤ union_int a1 then 1 else 0)) st
  else if nm = listName then
    .ok (.list (copy_children (ev.drop 1))) st
  else if nm = lenName then
    match check ev [some .list] with
    | some e => .err e
    | none => .ok (.int ((union_children a1).length : ℤ)) st
  else if nm = appendName then
    match check ev [some .list, some .list] with
    | some e => .err e
    | none => .ok (.list (copy_children (union_children a1) ++ copy_children (union_children a2))) st
  else if nm = carName then
    match check ev [some .list] with
    | some e => .err e
    | none =>
      match union_children a1 with
      | [] => .err errCarEmpty
      | x :: _ => .ok (copy_node x) st
  else if nm = cdrName then
    match check ev [some .list] with
    | some e => .err e
    | none => .ok (.list (copy_children ((union_children a1).drop 1))) st
  else if nm = randName then
    .ok (.int (host.rand st.randIdx)) { st with randIdx := st.randIdx + 1 }
  else if nm = printName then
    match check ev [none] with
    | some e => .err e
    | none => .ok (copy_node a1) { st with output := st.output ++ node_to_string a1 ++ ['\n'] }
  else if nm = fmtName then
    if ev.length < 2 then .err errFmtArity
    else if a1.kindOf ≠ Kind.str then .err errFmtFirstString
    else
      match do_fmt host ev with
      | .ok s => .ok (.str s) st
      | .error e => .err e
  else if nm = pfmtName then
    if ev.length < 2 then .err errFmtArity
    else if a1.kindOf ≠ Kind.str then .err errFmtFirstString
    else
      match do_fmt host ev with
      | .ok s => .ok (.str s) { st with output := st.output ++ cstr s }
      | .error e => .err e
  else
    match fn_lookup st.functions nm with
    | some body => call_user interp st ev body
    | none => .err errUnknownFn

/-- Application of a List node (`apply`): an empty list is a fatal error; the
0th child is evaluated and must be a NAME; the special forms `if` and
`define` receive the unevaluated List before any argument evaluation; all
other names first evaluate every argument left-to-right, then go through the
dispatch chain. -/
def apply_fn (host : Host) (interp : State → Node → Res) (st : State)
    (children : List Node) : Res :=
  match children with
  | [] => .err errEmptyApply
  | c0 :: rest =>
    match interp st c0 with
    | .ok first st1 =>
      match first with
      | .name nm =>
        if nm = ifName then interpret_if interp st1 (c0 :: rest)
        else if nm = defineName then interpret_define st1 (c0 :: rest)
        else
          match eval_args interp st1 rest with
          | .ok p => dispatch host interp nm (first :: p.1) p.2
          | .error r => r
      | _ => .err errHeadNotName
    | r => r

/-- Top-level evaluator `interpret`, indexed by fuel (recursion depth bound;
an embedding artifact — every call in a terminating C run is reproduced with
enough fuel). A NAME beginning with `:` is a positional argument reference:
with an empty argument stack it is an error; the suffix is parsed by
`strtoll` (failure is an error); an index at least the frame length is an
error; the C bounds check `array_len(*apply_args) <= idx` is a signed
comparison, so a negative index passes it and `array_item` then performs an
out-of-bounds read — undefined behaviour. -/
def interpret (host : Host) : ℕ → State → Node → Res
  | 0, _, _ => .fuel
  | fuel + 1, st, node =>
    match node with
    | .invalid => .err errBadNode
    | .program cs => run_program (interpret host fuel) st .invalid cs
    | .list cs => apply_fn host (interpret host fuel) st cs
    | .int i => .ok (copy_node (.int i)) st
    | .str s => .ok (copy_node (.str s)) st
    | .name s =>
      if s.head? = some ':' then
        match st.args with
        | [] => .err errArgRefOutside
        | frame :: _ =>
          match strtoll (s.drop 1) with
          | none => .err errArgRefParse
          | some iq =>
            if (frame.length : ℤ) ≤ iq.1 then .err errArgRefRange
            else if iq.1 < 0 then .ub
            else .ok (copy_node (frame.getD iq.1.toNat .invalid)) st
      else .ok (copy_node (.name s)) st

/-- Host with a constant PRNG and an `asprintf` that renders nothing; any
concrete host works for the claims, none of which depend on host output. -/
def host0 : Host := { rand := fun _ => 0, asprintf := fun _ _ => [] }

/-- Start-up state of `main`: empty function table, empty argument stack, no
output yet. -/
def st_empty : State := { functions := [], args := [], output := [], randIdx := 0 }

/-- Names handled by the built-in branches of the dispatch chain in `apply`
(everything between the special forms and the user-function lookup). -/
def is_builtin (nm : Bytes) : Bool :=
  nm = plusName || nm = minusName || nm = timesName || nm = divName || nm = modName ||
  nm = eqName || nm = neName || nm = ltName || nm = leName || nm = gtName || nm = geName ||
  nm = listName || nm = lenName || nm = appendName || nm = carName || nm = cdrName ||
  nm = randName || nm = printName || nm = fmtName || nm = pfmtName

/-- Head child of the C1 counterexample application: the expression
`[define if 1]`, a List (not a Name), which *evaluates* to the Name `if`. -/
def c1_head : Node := .list [.name defineName, .name ifName, .int 1]

/-- C1 counterexample application: `[[define if 1] 0 [] 42]`. Its literal
first child is not the Name `if`, yet the interpreter runs it as an `if`
special form (the empty-list child, a fatal error if ever evaluated, is the
unselected branch). -/
def c1_node : Node := .list [c1_head, .int 0, .list [], .int 42]

/-- State after the C1 counterexample: its head expression defined a user
function named `if` (which can never be called, since special-form dispatch
precedes the table lookup). -/
def c1_state : State :=
  { functions := [(ifName, [.int 1])], args := [], output := [], randIdx := 0 }

/-- State inside a call of a user function of arity 1: the top frame holds
the function-name node at index 0 and one argument at index 1 (frame size 2). -/
def c3_state : State :=
  { functions := [], args := [[.name [':', 'f'], .int 7]], output := [], randIdx := 0 }

/-- Positional reference `:-1` (a NAME whose suffix parses as the signed
decimal index -1). -/
def c3_ref : Node := .name [':', '-', '1']

/-- C6 scenario program:
`[define f [define f 99] 7] [print [f]] [print [f]]` — `f` redefines itself
mid-call; the first call must still run the original two-expression body
(printing 7), the second call runs the new body (printing 99). -/
def c6_prog : Node :=
  .program [
    .list [.name defineName, .name ['f'],
      .list [.name defineName, .name ['f'], .int 99], .int 7],
    .list [.name printName, .list [.name ['f']]],
    .list [.name printName, .list [.name ['f']]]]

/-- Final state of the C6 scenario: the table holds the new body `[99]` and
stdout received `7\n99\n`. -/
def c6_final : State :=
  { functions := [(['f'], [.int 99])], args := [],
    output := ['7', '\n', '9', '9', '\n'], randIdx := 0 }

/-- State for the C6 witness: a user function `g` with body `[3]`. -/
def c6_gstate : State :=
  { functions := [(['g'], [.int 3])], args := [], output := [], randIdx := 0 }

/-! ## Helper lemmas -/

theorem takeWhile_len_le (p : Char → Bool) : ∀ s : Bytes, (s.takeWhile p).length ≤ s.length
  | [] => Nat.le_refl 0
  | c :: cs => by
    simp only [List.takeWhile_cons]
    cases h : p c with
    | true => simpa using takeWhile_len_le p cs
    | false => simp

theorem dropWhile_len_le (p : Char → Bool) : ∀ s : Bytes, (s.dropWhile p).length ≤ s.length
  | [] => Nat.le_refl 0
  | c :: cs => by
    simp only [List.dropWhile_cons]
    cases h : p c with
    | true =>
      simp only [if_pos]
      exact Nat.le_trans (dropWhile_len_le p cs) (by simp)
    | false => simp

theorem cstr_of_all (s : Bytes) (h : s.all (fun c => c ≠ '\x00') = true) : cstr s = s := by
  induction s with
  | nil => rfl
  | cons c cs ih =>
    simp only [List.all_cons, Bool.and_eq_true] at h
    have hc : ¬ (c = '\x00') := by simpa using h.1
    simp only [cstr, List.takeWhile_cons]
    simp only [hc, decide_False, Bool.not_false, List.cons.injEq, true_and, decide_not]
    simpa [cstr] using ih h.2

theorem cstr_len_le (s : Bytes) : (cstr s).length ≤ s.length :=
  takeWhile_len_le _ s

mutual
theorem copy_node_of_wf : (n : Node) → n.wf = true → copy_node n = n
  | .int _, _ => rfl
  | .str s, h => by
    simp only [Node.wf] at h
    simp [copy_node, cstr_of_all s h]
  | .name s, h => by
    simp only [Node.wf] at h
    simp [copy_node, cstr_of_all s h]
  | .list cs, h => by
    simp only [Node.wf] at h
    simp [copy_node, copy_children_of_wf cs h]
theorem copy_children_of_wf : (cs : List Node) → wf_children cs = true → copy_children cs = cs
  | [], _ => rfl
  | c :: cs, h => by
    simp only [wf_children, Bool.and_eq_true] at h
    simp [copy_children, copy_node_of_wf c h.1, copy_children_of_wf cs h.2]
end

theorem copy_children_len : ∀ cs : List Node, (copy_children cs).length = cs.length
  | [] => rfl
  | _ :: cs => by simp [copy_children, copy_children_len cs]

theorem clean_go_len_le : ∀ (bs : Bytes) (m : Bool) (l : ℕ),
    ((clean_go m bs l).1).length ≤ bs.length
  | [], m, l => by cases m <;> simp [clean_go]
  | c :: cs, false, l => by
    simp only [clean_go]
    by_cases hs : isspace_c c = true
    · simp only [hs, if_true]
      exact Nat.le_trans (clean_go_len_le cs false _) (by simp)
    · simp only [Bool.not_eq_true] at hs
      simp only [hs, Bool.false_eq_true, if_false]
      by_cases hc : c = ';'
      · simp only [hc, if_pos rfl]
        exact Nat.le_trans (clean_go_len_le cs true l) (by simp)
      · simp [hc]
  | c :: cs, true, l => by
    simp only [clean_go]
    by_cases hn : c = '\n'
    · simp only [hn, if_pos rfl]
      exact Nat.le_trans (clean_go_len_le cs false _) (by simp)
    · simp only [hn, if_false]
      exact Nat.le_trans (clean_go_len_le cs true l) (by simp)

theorem clean_len_le (bs : Bytes) (l : ℕ) : ((clean bs l).1).length ≤ bs.length :=
  clean_go_len_le bs false l

theorem clean_no_skip (c : Char) (cs : Bytes) (l : ℕ)
    (h1 : isspace_c c = false) (h2 : c ≠ ';') : clean (c :: cs) l = (c :: cs, l) := by
  simp [clean, clean_go, h1, h2]

theorem isspace_of_isdigit (c : Char) (h : isdigit_c c = true) : isspace_c c = false := by
  cases hs : isspace_c c with
  | false => rfl
  | true =>
    exfalso
    simp only [isspace_c, decide_eq_true_eq] at hs
    rcases hs with rfl | rfl | rfl | rfl | rfl | rfl <;> exact absurd h (by decide)

theorem ne_semicolon_of_isdigit (c : Char) (h : isdigit_c c = true) : c ≠ ';' := by
  intro heq
  subst heq
  exact absurd h (by decide)

theorem digit_char_isdigit (n : ℕ) (h : n < 10) : isdigit_c (digit_char n) = true := by
  interval_cases n <;> decide

theorem digit_char_val (n : ℕ) (h : n < 10) : (digit_char n).toNat - 48 = n := by
  interval_cases n <;> decide

theorem take_digits_go : ∀ (fuel n : ℕ) (rest : Bytes), n < fuel →
    take_digits 0 (nat_decimal_go fuel n ++ rest) = take_digits n rest
  | 0, n, _, h => absurd h (Nat.not_lt_zero n)
  | fuel + 1, n, rest, h => by
    by_cases h10 : n < 10
    · simp only [nat_decimal_go, if_pos h10, List.cons_append, List.nil_append]
      simp only [take_digits, digit_char_isdigit n h10, if_true]
      rw [Nat.mul_zero, Nat.zero_add, digit_char_val n h10]
    · have hdiv : n / 10 < n := Nat.div_lt_self (by omega) (by omega)
      have hf : n / 10 < fuel := by omega
      simp only [nat_decimal_go, if_neg h10, List.append_assoc, List.singleton_append]
      rw [take_digits_go fuel (n / 10) (digit_char (n % 10) :: rest) hf]
      have hm : n % 10 < 10 := Nat.mod_lt n (by omega)
      simp only [take_digits, digit_char_isdigit (n % 10) hm, if_true]
      rw [digit_char_val (n % 10) hm, Nat.div_add_mod]

theorem nat_decimal_go_cons : ∀ (fuel n : ℕ), n < fuel →
    ∃ c cs, nat_decimal_go fuel n = c :: cs ∧ isdigit_c c = true
  | 0, n, h => absurd h (Nat.not_lt_zero n)
  | fuel + 1, n, h => by
    by_cases h10 : n < 10
    · exact ⟨digit_char n, [], by simp [nat_decimal_go, h10], digit_char_isdigit n h10⟩
    · have hf : n / 10 < fuel := by
        have : n / 10 < n := Nat.div_lt_self (by omega) (by omega)
        omega
      obtain ⟨c, cs, heq, hd⟩ := nat_decimal_go_cons fuel (n / 10) hf
      exact ⟨c, cs ++ [digit_char (n % 10)], by simp [nat_decimal_go, h10, heq], hd⟩

theorem nat_decimal_cons (n : ℕ) :
    ∃ c cs, nat_decimal n = c :: cs ∧ isdigit_c c = true :=
  nat_decimal_go_cons (n + 1) n (Nat.lt_succ_self n)

theorem take_digits_nat_decimal (n : ℕ) : take_digits 0 (nat_decimal n) = (n, []) := by
  have h1 := take_digits_go (n + 1) n [] (Nat.lt_succ_self n)
  rw [List.append_nil] at h1
  exact h1.trans rfl

theorem strtoll_nat_decimal (n : ℕ) : strtoll (nat_decimal n) = some ((n : ℤ), []) := by
  obtain ⟨c, cs, heq, hd⟩ := nat_decimal_cons n
  have hsp : isspace_c c = false := isspace_of_isdigit c hd
  have hdm : c ≠ '-' := fun h => absurd (h ▸ hd) (by decide)
  have hdp : c ≠ '+' := fun h => absurd (h ▸ hd) (by decide)
  have htd := take_digits_nat_decimal n
  rw [heq] at htd ⊢
  simp only [strtoll, List.dropWhile_cons, hsp, Bool.false_eq_true, if_false, hdm, hdp,
    if_neg, hd, if_true, htd]

theorem strtoll_int_decimal (i : ℤ) : strtoll (int_decimal i) = some (i, []) := by
  by_cases hneg : i < 0
  · simp only [int_decimal, if_pos hneg]
    obtain ⟨c, cs, heq, hd⟩ := nat_decimal_cons (-i).toNat
    have htd := take_digits_nat_decimal (-i).toNat
    have hspm : isspace_c '-' = false := by decide
    rw [heq] at htd
    simp only [strtoll, List.dropWhile_cons, hspm, Bool.false_eq_true, if_false, if_pos rfl,
      heq, hd, if_true, htd]
    simp only [Option.some.injEq, Prod.mk.injEq, and_true]
    rw [Int.toNat_of_nonneg (by omega)]
    ring
  · push_neg at hneg
    simp only [int_decimal, if_neg (by omega : ¬ i < 0)]
    rw [strtoll_nat_decimal, Int.toNat_of_nonneg hneg]

theorem int_decimal_cons (i : ℤ) :
    ∃ c cs, int_decimal i = c :: cs ∧ (isdigit_c c = true ∨ c = '-') := by
  by_cases hneg : i < 0
  · exact ⟨'-', nat_decimal (-i).toNat, by simp [int_decimal, hneg], Or.inr rfl⟩
  · obtain ⟨c, cs, heq, hd⟩ := nat_decimal_cons i.toNat
    exact ⟨c, cs, by simp [int_decimal, hneg, heq], Or.inl hd⟩

theorem int_guard_int_decimal (i : ℤ) : int_guard (int_decimal i) = true := by
  by_cases hneg : i < 0
  · obtain ⟨c, cs, heq, hd⟩ := nat_decimal_cons (-i).toNat
    simp only [int_decimal, if_pos hneg, int_guard, heq]
    simp [hd]
  · obtain ⟨c, cs, heq, hd⟩ := nat_decimal_cons i.toNat
    simp only [int_decimal, if_neg hneg, heq, int_guard]
    simp [hd]

theorem clean_int_decimal (i : ℤ) (l : ℕ) : clean (int_decimal i) l = (int_decimal i, l) := by
  obtain ⟨c, cs, heq, hcs⟩ := int_decimal_cons i
  rw [heq]
  rcases hcs with hd | hm
  · exact clean_no_skip c cs l (isspace_of_isdigit c hd) (ne_semicolon_of_isdigit c hd)
  · subst hm
    exact clean_no_skip '-' cs l (by decide) (by decide)

theorem parse_node_int_decimal (fuel : ℕ) (i : ℤ) :
    parse_node (fuel + 1) (int_decimal i) 1 = .ok (.int i) [] 1 := by
  obtain ⟨c, cs, heq, _⟩ := int_decimal_cons i
  have hg : int_guard (int_decimal i) = true := int_guard_int_decimal i
  have hs : strtoll (int_decimal i) = some (i, []) := strtoll_int_decimal i
  have hcl : clean (int_decimal i) 1 = (int_decimal i, 1) := clean_int_decimal i 1
  rw [heq] at hg hs hcl ⊢
  simp only [parse_node, hcl, hg, if_true, hs]

theorem esc_byte_len_le (c : Char) : (esc_byte c).length ≤ 2 := by
  unfold esc_byte
  split_ifs <;> simp

mutual
theorem string_escape_len_false : ∀ s : Bytes, (string_escape false s).length ≤ s.length
  | [] => by simp [string_escape]
  | c :: cs => by
    have h1 := string_escape_len_true cs
    have h2 := string_escape_len_false cs
    by_cases hc : c = '\\' <;> simp [string_escape, hc] <;> omega
theorem string_escape_len_true : ∀ s : Bytes, (string_escape true s).length ≤ s.length + 1
  | [] => by simp [string_escape]
  | c :: cs => by
    have h1 := string_escape_len_true cs
    have h2 := string_escape_len_false cs
    have h3 := esc_byte_len_le c
    by_cases hc : c = '\\' <;> simp [string_escape, hc] <;> omega
end

theorem scan_string_len : ∀ (b : Bool) (s : Bytes),
    (scan_string b s).1.length + (scan_string b s).2.length = s.length
  | _, [] => rfl
  | b, c :: cs => by
    simp only [scan_string]
    by_cases hq : (c = '"' ∧ b = false)
    · simp [hq]
    · simp only [if_neg hq, List.length_cons]
      have := scan_string_len (c = '\\') cs
      omega

theorem parse_list_only_list : ∀ (fuel : ℕ) (acc : List Node) (bs : Bytes) (l : ℕ)
    (q : Node) (rest : Bytes) (l' : ℕ), parse_list fuel acc bs l = .ok q rest l' →
    ∃ cs, q = .list cs
  | 0, _, _, _, _, _, _, h => absurd h (by simp [parse_list])
  | fuel + 1, acc, bs, l, q, rest, l', h => by
    rw [parse_list] at h
    by_cases hb : bs.head? = some ']'
    · rw [if_pos hb] at h
      cases h
      exact ⟨acc.reverse, rfl⟩
    · rw [if_neg hb] at h
      split at h
      · exact PRes.noConfusion h
      · exact parse_list_only_list fuel _ _ _ q rest l' h
      · next h1 h2 => exact absurd h (h2 q rest l')

theorem parse_node_str_len (fuel : ℕ) (bs : Bytes) (l : ℕ) (q : Bytes) (rest : Bytes)
    (l' : ℕ) (h : parse_node fuel bs l = .ok (.str q) rest l') : q.length + 2 ≤ bs.length := by
  cases fuel with
  | zero => exact PRes.noConfusion h
  | succ fuel =>
    have hcl : ((clean bs l).1).length ≤ bs.length := clean_len_le bs l
    rw [parse_node] at h
    cases hc : (clean bs l).1 with
    | nil =>
      rw [hc] at h
      simp only at h
      cases h
    | cons c rest2 =>
      rw [hc] at h
      rw [hc] at hcl
      simp only at h
      split at h
      · split at h
        · cases h
        · exact PRes.noConfusion h
      · split at h
        · obtain ⟨cs, hcs⟩ := parse_list_only_list _ _ _ _ _ _ _ h
          exact Node.noConfusion hcs
        · split at h
          · split at h
            · next tail heq =>
                cases h
                have h1 := string_escape_len_false (scan_string false rest2).1
                have h2 := scan_string_len false rest2
                rw [heq] at h2
                simp only [List.length_cons] at h2 hcl ⊢
                omega
            · exact PRes.noConfusion h
          · split at h
            · exact PRes.noConfusion h
            · cases h

theorem cstr_cstr (s : Bytes) : cstr (cstr s) = cstr s := by
  apply cstr_of_all
  simp only [List.all_eq_true]
  intro c hc
  have := List.mem_takeWhile_imp hc
  simpa using this

theorem interpret_plain_name (host : Host) (n : ℕ) (st : State) (s : Bytes)
    (h : s.head? ≠ some ':') :
    interpret host (n + 1) st (.name s) = .ok (.name (cstr s)) st := by
  simp only [interpret]
  rw [if_neg h]
  simp [copy_node]

theorem interpret_name_if (host : Host) (n : ℕ) (st : State) :
    interpret host (n + 1) st (.name ifName) = .ok (.name ifName) st := by
  rw [interpret_plain_name host n st ifName (by decide)]
  have : cstr ifName = ifName := by decide
  rw [this]

theorem apply_fn_head_if (host : Host) (n : ℕ) (st st1 : State) (c0 : Node)
    (rest : List Node) (h : interpret host n st c0 = .ok (.name ifName) st1) :
    interpret host (n + 1) st (.list (c0 :: rest)) =
      interpret_if (interpret host n) st1 (c0 :: rest) := by
  simp only [interpret, apply_fn, h]
  simp

theorem apply_fn_head_define (host : Host) (n : ℕ) (st st1 : State) (c0 : Node)
    (rest : List Node) (h : interpret host n st c0 = .ok (.name defineName) st1) :
    interpret host (n + 1) st (.list (c0 :: rest)) =
      interpret_define st1 (c0 :: rest) := by
  simp only [interpret, apply_fn, h]
  rw [if_neg (by decide : ¬ (defineName = ifName))]
  simp

theorem dispatch_not_builtin (host : Host) (interp : State → Node → Res) (nm : Bytes)
    (ev : List Node) (st : State) (h : is_builtin nm = false) :
    dispatch host interp nm ev st =
      (match fn_lookup st.functions nm with
       | some body => call_user interp st ev body
       | none => .err errUnknownFn) := by
  have hne : ∀ x : Bytes, is_builtin x = true → nm ≠ x := by
    intro x hx he
    rw [he, hx] at h
    exact Bool.noConfusion h
  simp only [dispatch]
  rw [if_neg (hne plusName (by decide)), if_neg (hne minusName (by decide)),
    if_neg (hne timesName (by decide)), if_neg (hne divName (by decide)),
    if_neg (hne modName (by decide)), if_neg (hne eqName (by decide)),
    if_neg (hne neName (by decide)), if_neg (hne ltName (by decide)),
    if_neg (hne leName (by decide)), if_neg (hne gtName (by decide)),
    if_neg (hne geName (by decide)), if_neg (hne listName (by decide)),
    if_neg (hne lenName (by decide)), if_neg (hne appendName (by decide)),
    if_neg (hne carName (by decide)), if_neg (hne cdrName (by decide)),
    if_neg (hne randName (by decide)), if_neg (hne printName (by decide)),
    if_neg (hne fmtName (by decide)), if_neg (hne pfmtName (by decide))]

theorem apply_fn_user (host : Host) (n : ℕ) (st st1 st2 : State) (c0 : Node)
    (rest evs : List Node) (nm : Bytes) (body : List Node)
    (hhead : interpret host n st c0 = .ok (.name nm) st1)
    (hif : nm ≠ ifName) (hdef : nm ≠ defineName) (hb : is_builtin nm = false)
    (hargs : eval_args (interpret host n) st1 rest = .ok (evs, st2))
    (hlook : fn_lookup st2.functions nm = some body) :
    interpret host (n + 1) st (.list (c0 :: rest)) =
      call_user (interpret host n) st2 (.name nm :: evs) body := by
  simp only [interpret, apply_fn, hhead]
  rw [if_neg hif, if_neg hdef]
  rw [hargs]
  simp only
  rw [dispatch_not_builtin host (interpret host n) nm (.name nm :: evs) st2 hb, hlook]

theorem interpret_define_name (st : State) (children : List Node) (s : Bytes)
    (h1 : children.getD 1 .invalid = .name s) (h2 : 3 ≤ children.length) :
    interpret_define st children = .ok (.name (cstr s))
      { st with functions := fn_insert st.functions (cstr s) (copy_children (children.drop 2)) } := by
  simp only [interpret_define, if_neg (by omega : ¬ children.length < 3), h1]
  simp [copy_node, union_name, cstr_cstr]

theorem fn_lookup_insert (tbl : List (Bytes × List Node)) (k : Bytes) (v : List Node) :
    fn_lookup (fn_insert tbl k v) k = some v := by
  simp [fn_insert, fn_lookup]

/-! ## Claim theorems -/

/-- C10: evaluating an empty List (`[ ]`) is a defined fatal error, not
undefined behaviour: `apply` checks for at least one child before touching
the head, so every empty application dies with the "no function to apply in
empty list" diagnostic. -/
theorem c10_empty_list_application (host : Host) (n : ℕ) (st : State) :
    interpret host (n + 1) st (.list []) = .err errEmptyApply := by
  simp [interpret, apply_fn]

/-- C2 evaluation: the escape loop skips every backslash byte before reaching
the escape switch, so `case '\\'` is dead code: the four source bytes
`a\\n` materialise as the two bytes `a` LF (the byte after `\\` is
re-escaped), not the claimed three bytes `a` `\` `n`, and a lone `\\`
materialises as zero bytes instead of one backslash. The third conjunct
records the switch's intended (dead) backslash mapping. -/
theorem c2_backslash_materialisation :
    parse_node 1 ('"' :: 'a' :: '\\' :: '\\' :: 'n' :: '"' :: []) 1 =
      .ok (.str ['a', '\n']) [] 1 ∧
    string_escape false ['a', '\\', '\\', 'n'] = ['a', '\n'] ∧
    string_escape false ['\\', '\\'] = [] ∧
    esc_byte '\\' = ['\\'] :=
  ⟨rfl, rfl, rfl, rfl⟩

/-- C4 evaluation: `interpret` on a PROGRAM node returns the *freed* result
of the last child, whose struct (in particular its kind) survives
`free_node`; only an empty PROGRAM yields an Invalid node. Here the
single-child program `5` returns the Int node 5, not Invalid (for INT_ATOM
`free_node` is even a complete no-op, so the returned node is fully alive). -/
theorem c4_program_returns_last :
    interpret host0 2 st_empty (.program [.int 5]) = .ok (.int 5) st_empty ∧
    interpret host0 2 st_empty (.program []) = .ok .invalid st_empty :=
  ⟨rfl, rfl⟩

/-- C1 counterexample: in `[[define if 1] 0 [] 42]` the literal first child
is a List — its string form is not `if` — yet the application is dispatched
as the `if` special form, because dispatch keys on the *evaluated* head
(`[define if 1]` evaluates to the Name `if`). The run is observably lazy:
the empty-list child (a fatal error whenever evaluated) is skipped and the
else branch 42 is returned. -/
theorem c1_counterexample :
    interpret host0 4 st_empty c1_node = .ok (.int 42) c1_state ∧
    c1_head.kindOf ≠ Kind.name :=
  ⟨rfl, by decide⟩

/-- C1 amended: special forms are dispatched before any argument evaluation,
but keyed by the string form of the *evaluated* first child: whenever the
head expression evaluates to the Name `if` (resp. `define`), the unevaluated
List is delegated to the special form, the remaining children untouched.
(For a literal Name head the two keys coincide, since evaluating a plain
Name returns an equal copy.) -/
theorem c1_amended (host : Host) (n : ℕ) (st st1 : State) (c0 : Node) (rest : List Node) :
    (interpret host n st c0 = .ok (.name ifName) st1 →
      interpret host (n + 1) st (.list (c0 :: rest)) =
        interpret_if (interpret host n) st1 (c0 :: rest)) ∧
    (interpret host n st c0 = .ok (.name defineName) st1 →
      interpret host (n + 1) st (.list (c0 :: rest)) =
        interpret_define st1 (c0 :: rest)) :=
  ⟨apply_fn_head_if host n st st1 c0 rest, apply_fn_head_define host n st st1 c0 rest⟩

/-- C1 witness: the amended dispatch rule applied to the concrete
application `[if 1 2]`. -/
theorem c1_witness :
    interpret host0 2 st_empty (.list [.name ifName, .int 1, .int 2]) =
      interpret_if (interpret host0 1) st_empty [.name ifName, .int 1, .int 2] :=
  (c1_amended host0 1 st_empty st_empty (.name ifName) [.int 1, .int 2]).1 rfl

/-- C5 counterexample: the String literal `"abc"` parses to a String node,
but the printer emits its raw bytes without quotes, and re-parsing that text
yields the Name `abc`, not a String node. -/
theorem c5_counterexample :
    parse_node 1 ('"' :: 'a' :: 'b' :: 'c' :: '"' :: []) 1 =
      .ok (.str ['a', 'b', 'c']) [] 1 ∧
    node_to_string (.str ['a', 'b', 'c']) = ['a', 'b', 'c'] ∧
    parse_node 1 ['a', 'b', 'c'] 1 = .ok (.name ['a', 'b', 'c']) [] 1 ∧
    Node.name ['a', 'b', 'c'] ≠ Node.str ['a', 'b', 'c'] :=
  ⟨rfl, rfl, rfl, fun h => Node.noConfusion h⟩

/-- C5 amended: round-trip printing holds for Int nodes — printing any Int
node and re-parsing yields the same node with the input consumed — but never
for String nodes: the printer drops the quote delimiters (and escapes), so
re-parsing the printed text of a String node cannot yield a node equal to
the original (its payload would have to be at least two bytes shorter). -/
theorem c5_roundtrip_amended :
    (∀ (i : ℤ) (fuel : ℕ),
       parse_node (fuel + 1) (node_to_string (.int i)) 1 = .ok (.int i) [] 1) ∧
    (∀ (fuel : ℕ) (p : Bytes) (q : Node) (rest : Bytes) (l : ℕ),
       parse_node fuel (node_to_string (.str p)) 1 = .ok q rest l → q ≠ .str p) := by
  constructor
  · intro i fuel
    exact parse_node_int_decimal fuel i
  · intro fuel p q rest l h hq
    subst hq
    have h2 := parse_node_str_len fuel (node_to_string (.str p)) 1 p rest l h
    have h3 : (node_to_string (.str p)).length ≤ p.length := by
      simpa [node_to_string] using cstr_len_le p
    omega

/-- C5 witness: the Int half at `-5`, and the String half at payload `a`
(whose printed form re-parses as a Name). -/
theorem c5_witness :
    parse_node 1 (node_to_string (.int (-5))) 1 = .ok (.int (-5)) [] 1 ∧
    Node.name ['a'] ≠ Node.str ['a'] :=
  ⟨c5_roundtrip_amended.1 (-5) 0, c5_roundtrip_amended.2 1 ['a'] (.name ['a']) [] 1 rfl⟩

/-- C3 counterexample: with a top frame of size 2, evaluating the positional
reference `:-1` does not signal an error — the signed bounds check
`array_len(*apply_args) <= idx` passes for a negative index and the
subsequent `array_item` access is out of bounds (undefined behaviour). -/
theorem c3_counterexample :
    interpret host0 1 c3_state c3_ref = .ub ∧
    Res.ub ≠ Res.err errArgRefRange :=
  ⟨rfl, fun h => Res.noConfusion h⟩

/-- C3 amended: a positional reference `:suffix` errors when the argument
stack is empty, when the suffix fails to parse as an integer, and when the
parsed index is at least the frame size; for 0 ≤ index < frame size it
returns a deep copy of the frame element at that index; a *negative* index
passes the signed bounds check and leads to an out-of-bounds access
(undefined behaviour), not an error. -/
theorem c3_arg_reference_amended (host : Host) (n : ℕ) (st : State) (s suffix : Bytes)
    (hs : s = ':' :: suffix) :
    (st.args = [] → interpret host (n + 1) st (.name s) = .err errArgRefOutside) ∧
    (∀ frame others, st.args = frame :: others →
      (strtoll suffix = none → interpret host (n + 1) st (.name s) = .err errArgRefParse) ∧
      (∀ idx rest2, strtoll suffix = some (idx, rest2) →
        ((frame.length : ℤ) ≤ idx → interpret host (n + 1) st (.name s) = .err errArgRefRange) ∧
        (idx < 0 → interpret host (n + 1) st (.name s) = .ub) ∧
        (0 ≤ idx → idx < (frame.length : ℤ) →
          interpret host (n + 1) st (.name s) =
            .ok (copy_node (frame.getD idx.toNat .invalid)) st))) := by
  subst hs
  constructor
  · intro hargs
    simp only [interpret, List.head?_cons, hargs]
    simp
  · intro frame others hargs
    constructor
    · intro hnone
      simp only [interpret, List.head?_cons, hargs, List.drop_succ_cons, List.drop_zero, hnone]
      simp
    · intro idx rest2 hsome
      refine ⟨?_, ?_, ?_⟩
      · intro hge
        simp only [interpret, List.head?_cons, hargs, List.drop_succ_cons, List.drop_zero, hsome]
        simp only [if_true, reduceIte]
        rw [if_pos hge]
      · intro hneg
        simp only [interpret, List.head?_cons, hargs, List.drop_succ_cons, List.drop_zero, hsome]
        simp only [if_true, reduceIte]
        rw [if_neg (by omega : ¬ ((frame.length : ℤ) ≤ idx)), if_pos hneg]
      · intro h0 hlt
        simp only [interpret, List.head?_cons, hargs, List.drop_succ_cons, List.drop_zero, hsome]
        simp only [if_true, reduceIte]
        rw [if_neg (by omega : ¬ ((frame.length : ℤ) ≤ idx)),
          if_neg (by omega : ¬ (idx < 0))]

/-- C3 witness: within a frame of size 2, `:1` resolves to a copy of the
argument and `:2` is a range error. -/
theorem c3_witness :
    interpret host0 1 c3_state (.name [':', '1']) = .ok (.int 7) c3_state ∧
    interpret host0 1 c3_state (.name [':', '2']) = .err errArgRefRange := by
  have h := c3_arg_reference_amended host0 0 c3_state [':', '1'] ['1'] rfl
  have h2 := c3_arg_reference_amended host0 0 c3_state [':', '2'] ['2'] rfl
  constructor
  · have := (((h.2 [.name [':', 'f'], .int 7] [] rfl).2 1 [] rfl).2.2) (by decide) (by decide)
    exact this.trans rfl
  · exact ((h2.2 [.name [':', 'f'], .int 7] [] rfl).2 2 [] rfl).1 (by decide)

/-- C6: redefinition safety. (1) A user-function call is fully determined by
the body found in the table at call entry: the call evaluates exactly that
snapshot (deep-copied) against the pushed frame, so table mutations made by
the running body cannot change which expressions the current call walks.
(2) `define` installs the new body (deep copies of the unevaluated
expressions), replacing the old binding, and (3) a subsequent lookup — hence
every subsequent call, by (1) — sees exactly the new body. (4) End-to-end:
in `[define f [define f 99] 7] [print [f]] [print [f]]` the first call still
runs the original two-expression body (printing 7) and the second call runs
the new body (printing 99). -/
theorem c6_redefinition_safety :
    (∀ (host : Host) (n : ℕ) (st st1 st2 : State) (c0 : Node) (rest evs : List Node)
       (nm : Bytes) (body : List Node),
       interpret host n st c0 = .ok (.name nm) st1 →
       nm ≠ ifName → nm ≠ defineName → is_builtin nm = false →
       eval_args (interpret host n) st1 rest = .ok (evs, st2) →
       fn_lookup st2.functions nm = some body →
       interpret host (n + 1) st (.list (c0 :: rest)) =
         call_user (interpret host n) st2 (.name nm :: evs) body) ∧
    (∀ (st : State) (children : List Node) (s : Bytes),
       children.getD 1 .invalid = .name s → 3 ≤ children.length →
       interpret_define st children = .ok (.name (cstr s))
         { st with functions :=
             fn_insert st.functions (cstr s) (copy_children (children.drop 2)) }) ∧
    (∀ (tbl : List (Bytes × List Node)) (k : Bytes) (v : List Node),
       fn_lookup (fn_insert tbl k v) k = some v) ∧
    interpret host0 12 st_empty c6_prog = .ok (.int 99) c6_final :=
  ⟨apply_fn_user, interpret_define_name, fn_lookup_insert, rfl⟩

/-- C6 witness: the snapshot rule applied to a concrete call `[g]` of a user
function `g` with body `[3]`. -/
theorem c6_witness :
    interpret host0 2 c6_gstate (.list [.name ['g']]) =
      call_user (interpret host0 1) c6_gstate [.name ['g']] [.int 3] :=
  c6_redefinition_safety.1 host0 1 c6_gstate c6_gstate c6_gstate (.name ['g']) [] []
    ['g'] [.int 3] rfl (by decide) (by decide) (by decide) rfl rfl

/-- C7: semantics of `[if COND TRUE-EXPR ELSE-EXPR?]`. Fewer than two
operands is a fatal error; a non-Int condition is a fatal error; a non-zero
condition evaluates exactly the TRUE expression (the result does not depend
on the remaining children); a zero condition with an else branch evaluates
exactly that branch (independent of the TRUE expression); a zero condition
without an else branch yields Int 0. The unselected branch is never
evaluated: the right-hand sides mention only the selected child. -/
theorem c7_if_semantics (host : Host) :
    (∀ (n : ℕ) (st : State) (cs : List Node),
       cs.head? = some (.name ifName) → cs.length < 3 →
       interpret host (n + 2) st (.list cs) = .err errIfArity) ∧
    (∀ (n : ℕ) (st st1 : State) (c0 t : Node) (es : List Node) (v : Node),
       interpret host (n + 1) st c0 = .ok v st1 → v.kindOf ≠ Kind.int →
       interpret host (n + 2) st (.list (.name ifName :: c0 :: t :: es)) =
         .err errIfCondInt) ∧
    (∀ (n : ℕ) (st st1 : State) (c0 t : Node) (es : List Node) (v : ℤ),
       interpret host (n + 1) st c0 = .ok (.int v) st1 → v ≠ 0 →
       interpret host (n + 2) st (.list (.name ifName :: c0 :: t :: es)) =
         interpret host (n + 1) st1 t) ∧
    (∀ (n : ℕ) (st st1 : State) (c0 t e : Node) (es : List Node),
       interpret host (n + 1) st c0 = .ok (.int 0) st1 →
       interpret host (n + 2) st (.list (.name ifName :: c0 :: t :: e :: es)) =
         interpret host (n + 1) st1 e) ∧
    (∀ (n : ℕ) (st st1 : State) (c0 t : Node),
       interpret host (n + 1) st c0 = .ok (.int 0) st1 →
       interpret host (n + 2) st (.list [.name ifName, c0, t]) = .ok (.int 0) st1) := by
  refine ⟨?_, ?_, ?_, ?_, ?_⟩
  · intro n st cs hhead hlen
    match cs, hhead with
    | .name _ :: cs', rfl =>
      rw [apply_fn_head_if host (n + 1) st st _ cs' (interpret_name_if host n st)]
      simp only [interpret_if, List.length_cons] at hlen ⊢
      rw [if_pos (by omega)]
  · intro n st st1 c0 t es v hcond hkind
    rw [apply_fn_head_if host (n + 1) st st _ _ (interpret_name_if host n st)]
    simp only [interpret_if, List.length_cons]
    rw [if_neg (by omega)]
    simp only [List.getD, List.get?, Option.getD_some, hcond]
    match v, hkind with
    | .invalid, _ => rfl
    | .program _, _ => rfl
    | .list _, _ => rfl
    | .str _, _ => rfl
    | .name _, _ => rfl
    | .int _, hk => exact absurd rfl hk
  · intro n st st1 c0 t es v hcond hv
    rw [apply_fn_head_if host (n + 1) st st _ _ (interpret_name_if host n st)]
    simp only [interpret_if, List.length_cons]
    rw [if_neg (by omega)]
    simp only [List.getD, List.get?, Option.getD_some, hcond]
    rw [if_pos hv]
  · intro n st st1 c0 t e es hcond
    rw [apply_fn_head_if host (n + 1) st st _ _ (interpret_name_if host n st)]
    simp only [interpret_if, List.length_cons]
    rw [if_neg (by omega)]
    simp only [List.getD, List.get?, Option.getD_some, hcond]
    rw [if_neg (by simp : ¬ ((0 : ℤ) ≠ 0)), if_pos (by omega)]
  · intro n st st1 c0 t hcond
    rw [apply_fn_head_if host (n + 1) st st _ _ (interpret_name_if host n st)]
    simp only [interpret_if, List.length_cons]
    rw [if_neg (by omega)]
    simp only [List.getD, List.get?, Option.getD_some, hcond]
    rw [if_neg (by simp : ¬ ((0 : ℤ) ≠ 0)), if_neg (by simp)]

/-- C7 witness: `[if 5 7 [ ]]` evaluates only the true branch (the empty
list would be a fatal error), and `[if 0 7]` yields Int 0. -/
theorem c7_witness :
    interpret host0 2 st_empty (.list [.name ifName, .int 5, .int 7, .list []]) =
      interpret host0 1 st_empty (.int 7) ∧
    interpret host0 2 st_empty (.list [.name ifName, .int 0, .int 7]) =
      .ok (.int 0) st_empty :=
  ⟨(c7_if_semantics host0).2.2.1 0 st_empty st_empty (.int 5) (.int 7) [.list []] 5
      rfl (by decide),
   (c7_if_semantics host0).2.2.2.2 0 st_empty st_empty (.int 0) (.int 7) rfl⟩

/-- C8: structural laws of the list built-ins, stated over the dispatch chain
applied to evaluated list *values* (well-formed nodes, on which the deep
copies taken by the built-ins are identities). `[append [list] L]` and
`[append L [list]]` yield a value equal to L; the value of `[len [append A
B]]` equals the value of `[+ [len A] [len B]]`; `[list X …]` builds the list
of its argument values and `car` of it returns X; and `[cdr L]` drops the
head, so `[len [cdr L]]` equals `[- [len L] 1]` for non-empty L. -/
theorem c8_list_structural (host : Host) (interp : State → Node → Res) (st : State) :
    (∀ cs, wf_children cs = true →
       dispatch host interp appendName [.name appendName, .list [], .list cs] st =
         .ok (.list cs) st) ∧
    (∀ cs, wf_children cs = true →
       dispatch host interp appendName [.name appendName, .list cs, .list []] st =
         .ok (.list cs) st) ∧
    (∀ as bs, wf_children as = true → wf_children bs = true →
       dispatch host interp appendName [.name appendName, .list as, .list bs] st =
         .ok (.list (as ++ bs)) st ∧
       dispatch host interp lenName [.name lenName, .list (as ++ bs)] st =
         dispatch host interp plusName
           [.name plusName, .int (as.length : ℤ), .int (bs.length : ℤ)] st) ∧
    (∀ x rest, Node.wf x = true → wf_children rest = true →
       dispatch host interp listName (.name listName :: x :: rest) st =
         .ok (.list (x :: rest)) st ∧
       dispatch host interp carName [.name carName, .list (x :: rest)] st = .ok x st) ∧
    (∀ x rest, wf_children rest = true →
       dispatch host interp cdrName [.name cdrName, .list (x :: rest)] st =
         .ok (.list rest) st ∧
       dispatch host interp lenName [.name lenName, .list rest] st =
         dispatch host interp minusName
           [.name minusName, .int ((x :: rest).length : ℤ), .int 1] st) := by
  refine ⟨?_, ?_, ?_, ?_, ?_⟩
  · intro cs h
    simp +decide [dispatch, check, check_kinds, Node.kindOf, union_children, copy_children,
      copy_children_of_wf cs h]
  · intro cs h
    simp +decide [dispatch, check, check_kinds, Node.kindOf, union_children, copy_children,
      copy_children_of_wf cs h]
  · intro as bs ha hb
    constructor
    · simp +decide [dispatch, check, check_kinds, Node.kindOf, union_children,
        copy_children_of_wf as ha, copy_children_of_wf bs hb]
    · simp +decide [dispatch, check, check_kinds, Node.kindOf, union_children, union_int]
  · intro x rest hx hr
    constructor
    · simp +decide [dispatch, check, check_kinds, Node.kindOf, union_children, copy_children,
        copy_node_of_wf x hx, copy_children_of_wf rest hr]
    · simp +decide [dispatch, check, check_kinds, Node.kindOf, union_children,
        copy_node_of_wf x hx]
  · intro x rest hr
    constructor
    · simp +decide [dispatch, check, check_kinds, Node.kindOf, union_children,
        copy_children_of_wf rest hr]
    · simp +decide [dispatch, check, check_kinds, Node.kindOf, union_children, union_int]

/-- C8 witness: the laws at the concrete one-element list `[1]` and the pair
`[1]`, `[2 3]`. -/
theorem c8_witness :
    dispatch host0 (interpret host0 1) appendName
      [.name appendName, .list [], .list [.int 1]] st_empty =
      .ok (.list [.int 1]) st_empty ∧
    dispatch host0 (interpret host0 1) carName
      [.name carName, .list [.int 1, .int 2]] st_empty = .ok (.int 1) st_empty :=
  ⟨(c8_list_structural host0 (interpret host0 1) st_empty).1 [.int 1] rfl,
   ((c8_list_structural host0 (interpret host0 1) st_empty).2.2.2.1 (.int 1) [.int 2]
      rfl rfl).2⟩

theorem fmt_scan_in_directive (nodes : List Node) : ∀ (body rest : Bytes) (last : Char)
    (idx : ℕ) (bodyAcc : Bytes) (acc : List Piece),
    body.all (fun ch => ch ≠ '\x7d') = true →
    fmt_scan nodes (body ++ '\x7d' :: rest) last idx (some bodyAcc) acc =
      (match fmt_directive nodes (bodyAcc.reverse ++ body) idx with
       | .ok pIdx => fmt_scan nodes rest '\x7d' pIdx.2 none (pIdx.1 :: acc)
       | .error e => .error e)
  | [], rest, last, idx, bodyAcc, acc, _ => by
    simp only [List.nil_append, fmt_scan, if_pos rfl, List.append_nil]
    simp
  | c :: body', rest, last, idx, bodyAcc, acc, h => by
    simp only [List.all_cons, Bool.and_eq_true] at h
    have hc : ¬ (c = '\x7d') := by simpa using h.1
    simp only [List.cons_append, fmt_scan, if_neg hc, List.append_eq]
    rw [fmt_scan_in_directive nodes body' rest last idx (c :: bodyAcc) acc h.2]
    simp [List.reverse_cons, List.append_assoc]

/-- C9: a directive whose body does not end in an alphabetic conversion
character (the test is on the last byte of `%body`, i.e. on `%` itself when
the body is empty) is treated as string-valued: after the missing-argument
check, the engine renders the value argument with the Node printer and
expands through `asprintf` with format `%body` plus a trailing `s`
conversion (the width argument, if any, is passed through raw). The second
conjunct shows the scan loop feeding every brace-delimited directive body to
this expansion rule. -/
theorem c9_fmt_string_valued :
    (∀ (nodes : List Node) (body : Bytes) (idx : ℕ),
       idx + (if body.any (fun c => c = '*') then 1 else 0) < nodes.length →
       isalpha_c (('%' :: body).getLastD ' ') = false →
       fmt_directive nodes body idx =
         (if body.any (fun c => c = '*') then
            .ok (.dir (('%' :: body) ++ ['s'])
              [.raw (nodes.getD idx .invalid),
               .rendered (node_to_string (nodes.getD (idx + 1) .invalid))], idx + 2)
          else
            .ok (.dir (('%' :: body) ++ ['s'])
              [.rendered (node_to_string (nodes.getD idx .invalid))], idx + 1))) ∧
    (∀ (nodes : List Node) (body rest : Bytes) (last : Char) (idx : ℕ) (acc : List Piece),
       body.all (fun ch => ch ≠ '\x7d') = true → last ≠ '\\' →
       fmt_scan nodes ('\x7b' :: (body ++ '\x7d' :: rest)) last idx none acc =
         (match fmt_directive nodes body idx with
          | .ok pIdx => fmt_scan nodes rest '\x7d' pIdx.2 none (pIdx.1 :: acc)
          | .error e => .error e)) := by
  constructor
  · intro nodes body idx hlen halpha
    cases hv : body.any (fun c => c = '*') with
    | true =>
      rw [hv] at hlen
      simp at hlen
      simp only [fmt_directive, hv]
      simp only [if_true, reduceIte]
      rw [if_neg (by omega : ¬ nodes.length ≤ idx + 1), if_pos halpha]
    | false =>
      rw [hv] at hlen
      simp at hlen
      simp only [fmt_directive, hv]
      simp only [Bool.false_eq_true, if_false, Nat.add_zero]
      rw [if_neg (by omega : ¬ nodes.length ≤ idx), if_pos halpha]
  · intro nodes body rest last idx acc hbody hlast
    simp only [fmt_scan, if_pos rfl, if_neg hlast]
    rw [fmt_scan_in_directive nodes body rest last idx [] acc hbody]
    simp

/-- C9 witness: the directive `{5}` (body `5`, not alphabetic) over the
argument 3 expands as `%5s` applied to the printed node. -/
theorem c9_witness :
    fmt_directive [.name fmtName, .str ['x'], .int 3] ['5'] 2 =
      .ok (.dir ['%', '5', 's'] [.rendered (node_to_string (.int 3))], 3) :=
  (c9_fmt_string_valued.1 [.name fmtName, .str ['x'], .int 3] ['5'] 2 (by decide)
    (by decide)).trans rfl

end Nickel
